import Mathlib

/-!
# Verification of the Stock-Data-Scraper pipeline

Shallow embedding of `src/stock_scraper/data_processor.py` (class
`DataProcessor`) and `src/stock_scraper/scraper.py` (class `StockScraper`).

Modelling conventions:

* A pandas cell is a `Cell`: `na` stands for the pandas null (NaN / None /
  pd.NA), `fnum` for a finite float value, `inum` for a (nullable-integer)
  value, `pinf` for the two IEEE infinities, `str` for a string cell.
  Rational arithmetic stands in for IEEE doubles; every numeric value that a
  theorem below evaluates is exactly representable in binary floating point,
  so the substitution is exact on those inputs.
* `PFloat` is the value domain of float arithmetic (NaN, ±∞, finite), with
  the IEEE rules for the operations the code performs (NaN propagation,
  division by zero producing ±∞, 0/0 producing NaN).
* DataFrames are `List Row` with a fixed schema of `Cell` fields, one field
  per column the code reads or writes.  The `timestamp`/`processed_at`/
  `source` columns are omitted: no modelled step or claim reads them
  (`processed_at` is freshly overwritten on every run).
* Python functions that return `None` on failure return `Cell.na`; code paths
  on which CPython would raise an exception that the surrounding code does
  not catch are marked in comments where they are modelled approximately —
  each such path is unreachable from the pipeline's own call sites.
-/

namespace StockScraper

/- Batteries marks the `Rat` field operations `@[irreducible]`; concrete
evaluation in proofs needs them reducible again. -/
unseal Rat.mul Rat.add Rat.inv Rat.sub Rat.ofScientific

/-! ## IEEE-style float values -/

/-- A pandas/numpy float64 value: NaN, an infinity, or a finite value
(modelled as a rational). -/
inductive PFloat where
  | nan : PFloat
  | inf : Bool → PFloat
  | num : ℚ → PFloat
deriving DecidableEq, Repr

/-- IEEE subtraction on `PFloat` (the cases float64 subtraction produces). -/
def pfSub : PFloat → PFloat → PFloat
  | .nan, _ => .nan
  | _, .nan => .nan
  | .num a, .num b => .num (a - b)
  | .inf a, .num _ => .inf a
  | .num _, .inf b => .inf (!b)
  | .inf a, .inf b => if a = b then .nan else .inf a

/-- IEEE division on `PFloat`: division by (positive) zero yields a signed
infinity, `0/0` yields NaN — numpy emits a warning but no exception. -/
def pfDiv : PFloat → PFloat → PFloat
  | .nan, _ => .nan
  | _, .nan => .nan
  | .num a, .num b =>
      if b = 0 then (if a = 0 then .nan else .inf (decide (0 < a)))
      else .num (a / b)
  | .num _, .inf _ => .num 0
  | .inf a, .num b => if b = 0 then .inf a else .inf (a = decide (0 < b))
  | .inf _, .inf _ => .nan

/-- IEEE multiplication on `PFloat`. -/
def pfMul : PFloat → PFloat → PFloat
  | .nan, _ => .nan
  | _, .nan => .nan
  | .num a, .num b => .num (a * b)
  | .inf a, .num b => if b = 0 then .nan else .inf (a = decide (0 < b))
  | .num a, .inf b => if a = 0 then .nan else .inf (b = decide (0 < a))
  | .inf a, .inf b => .inf (a = b)

/-- Is this value NaN? -/
def PFloat.isNaN : PFloat → Bool
  | .nan => true
  | _ => false

/-! ## Python string helpers -/

/-- The whitespace stripped by `str.strip()` / accepted around `float()`
literals (the ASCII part; the code never feeds non-ASCII whitespace). -/
def isPySpace (c : Char) : Bool :=
  c = ' ' || c = '\t' || c = '\n' || c = '\x0d' || c = '\x0b' || c = '\x0c'

/-- Drop matching characters from both ends of a list (`str.strip()`). -/
def dropEdges (p : Char → Bool) (l : List Char) : List Char :=
  ((l.dropWhile p).reverse.dropWhile p).reverse

/-- `str.strip()`. -/
def pyStrip (s : String) : String :=
  String.mk (dropEdges isPySpace s.toList)

/-- Are all characters decimal digits? -/
def allDigits (cs : List Char) : Bool := cs.all Char.isDigit

/-- Value of a run of decimal digits. -/
def digitsVal (cs : List Char) : ℕ :=
  cs.foldl (fun a c => 10 * a + (c.toNat - 48)) 0

/-- Neighbour check for `_` inside the tail of a Python numeric literal:
every underscore must sit between two digits. -/
def okUnderscoresAux : Char → List Char → Bool
  | _, [] => true
  | prev, c :: rest =>
      if c = '_' then
        (prev.isDigit && (match rest with | r :: _ => r.isDigit | [] => false))
          && okUnderscoresAux c rest
      else okUnderscoresAux c rest

/-- Underscore placement rule of Python numeric literals, applied to the body
of a `float()` argument. -/
def okUnderscores : List Char → Bool
  | [] => true
  | c :: rest => if c = '_' then false else okUnderscoresAux c rest

/-- Parse an unsigned decimal mantissa — `digits`, `digits.digits?` or
`.digits` — as a rational.  Returns `none` exactly when Python's `float()`
would raise `ValueError` on this part. -/
def parseUnsignedDec (cs : List Char) : Option ℚ :=
  let intPart := cs.takeWhile (fun c => c ≠ '.')
  match cs.dropWhile (fun c => c ≠ '.') with
  | [] =>
      if !intPart.isEmpty && allDigits intPart then some (digitsVal intPart) else none
  | _ :: frac =>
      if frac.any (fun c => c = '.') then none
      else if allDigits intPart && allDigits frac
          && (!intPart.isEmpty || !frac.isEmpty) then
        some ((digitsVal intPart : ℚ) + (digitsVal frac : ℚ) / (10 : ℚ) ^ frac.length)
      else none

/-- Parse the exponent part of a `float()` literal (after `e`/`E`). -/
def parseExp (cs : List Char) : Option ℤ :=
  match cs with
  | '+' :: r => if !r.isEmpty && allDigits r then some (digitsVal r) else none
  | '-' :: r => if !r.isEmpty && allDigits r then some (-(digitsVal r : ℤ)) else none
  | r => if !r.isEmpty && allDigits r then some (digitsVal r) else none

/-- Parse the unsigned numeric body of a `float()` literal, exponent
included. -/
def parseNumBody (cs : List Char) : Option ℚ :=
  if cs.any (fun c => c = 'e' || c = 'E') then
    let m := cs.takeWhile (fun c => !(c = 'e' || c = 'E'))
    match cs.dropWhile (fun c => !(c = 'e' || c = 'E')) with
    | _ :: ex =>
        match parseUnsignedDec m, parseExp ex with
        | some q, some e => some (q * (10 : ℚ) ^ e)
        | _, _ => none
    | [] => none
  else parseUnsignedDec cs

/-- Python's `float(str)` on a character list: strips surrounding whitespace,
takes an optional sign, accepts `inf`/`infinity`/`nan` case-insensitively,
otherwise parses a decimal literal (underscores between digits allowed).
`none` is `ValueError`. -/
def pyFloatOfChars (cs0 : List Char) : Option PFloat :=
  match dropEdges isPySpace cs0 with
  | [] => none
  | cs =>
      let sgn : Bool := match cs with | '-' :: _ => false | _ => true
      let body : List Char := match cs with | '-' :: r => r | '+' :: r => r | r => r
      let low := body.map Char.toLower
      if low = "inf".toList || low = "infinity".toList then some (.inf sgn)
      else if low = "nan".toList then some .nan
      else if okUnderscores body then
        (parseNumBody (body.filter (fun c => c ≠ '_'))).map
          (fun q => .num (if sgn then q else -q))
      else none

/-- Python's `float(s)` for a string. -/
def pyFloat (s : String) : Option PFloat := pyFloatOfChars s.toList

/-- Python's `int(f)` on a finite float: truncation toward zero. -/
def pyTrunc (q : ℚ) : ℤ :=
  if q < 0 then -((-q).floor) else q.floor

/-! ## Cells -/

/-- One pandas cell. -/
inductive Cell where
  | na : Cell
  | str : String → Cell
  | fnum : ℚ → Cell
  | inum : ℤ → Cell
  | pinf : Bool → Cell
deriving DecidableEq, Repr

/-- `pd.isna` on a cell. -/
def Cell.isNa : Cell → Bool
  | .na => true
  | _ => false

/-- Is the cell a string (pandas: makes the column `object`-typed)? -/
def Cell.isStr : Cell → Bool
  | .str _ => true
  | _ => false

/-- The float value a cell contributes to column arithmetic: nulls are NaN;
string cells cannot reach arithmetic in the pipeline (after
`standardize_formats` the numeric columns hold no strings — pandas would
raise on an `object` column — so the `str` case is an unreachable default). -/
def toPF : Cell → PFloat
  | .na => .nan
  | .fnum q => .num q
  | .inum n => .num n
  | .pinf b => .inf b
  | .str _ => .nan

/-- Store a float value back into a cell: NaN is the pandas null. -/
def pfToCell : PFloat → Cell
  | .nan => .na
  | .inf b => .pinf b
  | .num q => .fnum q

/-- Stand-in for Python's `str(value)` on a non-string non-null cell (the
`clean_market_cap_value` fallthrough).  The exact rendering never matters: no
claim inspects it, and the pipeline's own market-cap cells are strings or
null. -/
def pyStrCell : Cell → String
  | .na => "nan"
  | .str s => s
  | .fnum q => toString q.num ++ "/" ++ toString q.den
  | .inum n => toString n
  | .pinf b => if b then "inf" else "-inf"

/-! ## `DataProcessor` scalar cleaning functions -/

/-- `DataProcessor.clean_numeric_value` (data_processor.py:166-182):
null stays null; ints/floats pass through `float()`; a string is stripped of
every character outside `[0-9.-]` and parsed, with `None` on empty or
unparseable remainders. -/
def cleanNumericValue : Cell → Cell
  | .na => .na
  | .fnum q => .fnum q
  | .inum n => .fnum n
  | .pinf b => .pinf b
  | .str s =>
      let cleaned := s.toList.filter (fun c => c.isDigit || c = '.' || c = '-')
      if cleaned.isEmpty then .na
      else
        match pyFloatOfChars cleaned with
        | some pf => pfToCell pf
        | none => .na

/-- The suffix branch of `clean_volume_value`: remove every occurrence of the
suffix letter (`str.replace`), `float()` the remainder, scale, truncate to
`int`.  A `ValueError` from `float()` returns `None`; `int(±inf)` would raise
`OverflowError` past the `except ValueError` (unreachable for the claims) and
is modelled as the null result. -/
def volumeSuffixParse (vu : List Char) (suffix : Char) (mult : ℚ) : Cell :=
  match pyFloatOfChars (vu.filter (fun c => c ≠ suffix)) with
  | some (.num q) => .inum (pyTrunc (q * mult))
  | some _ => .na
  | none => .na

/-- The no-suffix branch of `clean_volume_value`: strip every character
outside `[0-9.]` from the original string, then `int(float(...))`;
`ValueError` returns `None`. -/
def volumeNoSuffixParse (s : String) : Cell :=
  match pyFloatOfChars (s.toList.filter (fun c => c.isDigit || c = '.')) with
  | some (.num q) => .inum (pyTrunc q)
  | _ => .na

/-- `DataProcessor.clean_volume_value` (data_processor.py:184-212): nulls stay
null, ints pass through, floats are truncated by `int()`; a string is
uppercased and comma-stripped, then the suffixes `K`, `M`, `B` are tried in
that (dict-insertion) order by substring containment; without a suffix the
no-suffix branch runs.  `int(±inf)` on the float branch would raise
(unreachable in the pipeline) and is modelled as null. -/
def cleanVolumeValue : Cell → Cell
  | .na => .na
  | .inum n => .inum n
  | .fnum q => .inum (pyTrunc q)
  | .pinf _ => .na
  | .str s =>
      let vu := (s.toList.map Char.toUpper).filter (fun c => c ≠ ',')
      if vu.contains 'K' then volumeSuffixParse vu 'K' 1000
      else if vu.contains 'M' then volumeSuffixParse vu 'M' 1000000
      else if vu.contains 'B' then volumeSuffixParse vu 'B' 1000000000
      else volumeNoSuffixParse s

/-- `DataProcessor.clean_market_cap_value` (data_processor.py:214-223): null
stays null, strings are stripped, anything else becomes `str(value)`. -/
def cleanMarketCapValue : Cell → Cell
  | .na => .na
  | .str s => .str (pyStrip s)
  | c => .str (pyStrCell c)

/-- `(l.dropWhile p).length ≤ l.length`. -/
theorem length_dropWhile_le (p : Char → Bool) (l : List Char) :
    (l.dropWhile p).length ≤ l.length := by
  induction l with
  | nil => simp [List.dropWhile]
  | cons c cs ih =>
      by_cases h : p c
      · simp only [List.dropWhile, h]
        exact Nat.le_succ_of_le ih
      · simp [List.dropWhile, h]

/-- The effect of `re.sub(r'\([^)]*\)', '', name)`: scanning left to right,
a `(` that has a later `)` is removed together with everything up to that
`)`; a `(` with no matching `)` is kept. -/
def removeParens : List Char → List Char
  | [] => []
  | c :: rest =>
      if c = '(' then
        match h : rest.dropWhile (fun x => x ≠ ')') with
        | [] => c :: removeParens rest
        | _ :: after => removeParens after
      else c :: removeParens rest
termination_by l => l.length
decreasing_by
  · simp only [List.length_cons]
    omega
  · have := length_dropWhile_le (fun x => x ≠ ')') rest
    rw [h] at this
    simp only [List.length_cons] at this ⊢
    omega
  · simp only [List.length_cons]
    omega

/-- `DataProcessor.clean_company_name` (data_processor.py:225-237): strip,
remove parenthetical segments, strip again; non-strings become `str(value)`. -/
def cleanCompanyName : Cell → Cell
  | .na => .na
  | .str s => .str (pyStrip (String.mk (removeParens (pyStrip s).toList)))
  | c => .str (pyStrCell c)

/-- `DataProcessor.categorize_market_cap` (data_processor.py:239-254):
substring containment on the raw string, priority `T`, `B`, `M`, else
Small Cap; null and non-string inputs give Unknown. -/
def categorizeMarketCap : Cell → String
  | .na => "Unknown"
  | .str s =>
      if s.toList.contains 'T' then "Mega Cap"
      else if s.toList.contains 'B' then "Large Cap"
      else if s.toList.contains 'M' then "Mid Cap"
      else "Small Cap"
  | _ => "Unknown"

/-- `DataProcessor.categorize_performance` (data_processor.py:256-270):
threshold ladder on `change_percent`; null gives Unknown.  (A string cell
would make CPython raise on the comparison; `toPF` maps it to NaN, an
unreachable default after `standardize_formats`.) -/
def categorizePerformance (c : Cell) : String :=
  match toPF c with
  | .nan => "Unknown"
  | .inf b => if b then "Strong Positive" else "Strong Negative"
  | .num q =>
      if 5 < q then "Strong Positive"
      else if 2 < q then "Positive"
      else if -2 < q then "Neutral"
      else if -5 < q then "Negative"
      else "Strong Negative"

/-! ## The DataFrame schema

One field per column the `DataProcessor` steps read or write.  The derived
columns are always present, initialised to null: pandas only distinguishes a
missing column from an all-null one inside `handle_missing_values`, whose
effect on those columns is overwritten by `add_derived_metrics` in the same
run, so the fixed schema is observationally equivalent for every claim. -/

structure Row where
  symbol : String
  company_name : Cell := .na
  current_price : Cell := .na
  change : Cell := .na
  change_percent : Cell := .na
  previous_close : Cell := .na
  «open» : Cell := .na
  day_low : Cell := .na
  day_high : Cell := .na
  week_52_low : Cell := .na
  week_52_high : Cell := .na
  pe_ratio : Cell := .na
  eps : Cell := .na
  volume : Cell := .na
  market_cap : Cell := .na
  error : Cell := .na
  price_momentum : Cell := .na
  daily_volatility : Cell := .na
  market_cap_category : Cell := .na
  performance_category : Cell := .na
deriving DecidableEq, Repr

/-! ## `clean_data` (data_processor.py:53-80) -/

/-- The per-row effect of `clean_data`'s column loops: `clean_numeric_value`
on each of `self.numeric_columns`, `clean_volume_value` on `volume`,
`clean_market_cap_value` on `market_cap`, `clean_company_name` on
`company_name`. -/
def cleanRow (r : Row) : Row :=
  { r with
    current_price := cleanNumericValue r.current_price
    change := cleanNumericValue r.change
    change_percent := cleanNumericValue r.change_percent
    previous_close := cleanNumericValue r.previous_close
    «open» := cleanNumericValue r.«open»
    day_low := cleanNumericValue r.day_low
    day_high := cleanNumericValue r.day_high
    week_52_low := cleanNumericValue r.week_52_low
    week_52_high := cleanNumericValue r.week_52_high
    pe_ratio := cleanNumericValue r.pe_ratio
    eps := cleanNumericValue r.eps
    volume := cleanVolumeValue r.volume
    market_cap := cleanMarketCapValue r.market_cap
    company_name := cleanCompanyName r.company_name }

/-- `DataProcessor.clean_data`: drop the rows whose `error` cell is non-null
(`df_clean[df_clean['error'].isna()]`), then clean the columns. -/
def cleanData (df : List Row) : List Row :=
  (df.filter (fun r => r.error.isNa)).map cleanRow

/-! ## `standardize_formats` (data_processor.py:82-104) -/

/-- `pd.to_numeric(·, errors='coerce')` on one cell.  After `clean_data` the
affected columns contain no strings; the string branch approximates pandas'
numeric parsing with the `float()` grammar. -/
def toNumericCoerce : Cell → Cell
  | .na => .na
  | .fnum q => .fnum q
  | .inum n => .inum n
  | .pinf b => .pinf b
  | .str s =>
      match pyFloatOfChars s.toList with
      | some (.num q) => .fnum q
      | some (.inf b) => .pinf b
      | _ => .na

/-- `.astype('Int64')` after `to_numeric` on the volume column.  pandas
raises on a non-integral float (`clean_volume_value` only produces integers
or nulls, so that cell never occurs); the unreachable branches are modelled
as null. -/
def astypeInt64 : Cell → Cell
  | .na => .na
  | .inum n => .inum n
  | .fnum q => if q.den = 1 then .inum q.num else .na
  | .pinf _ => .na
  | .str _ => .na

/-- The per-row effect of `standardize_formats` on the modelled columns
(timestamp parsing and the fresh `processed_at` stamp act on columns no claim
or later step reads). -/
def standardizeRow (r : Row) : Row :=
  { r with
    current_price := toNumericCoerce r.current_price
    change := toNumericCoerce r.change
    change_percent := toNumericCoerce r.change_percent
    previous_close := toNumericCoerce r.previous_close
    «open» := toNumericCoerce r.«open»
    day_low := toNumericCoerce r.day_low
    day_high := toNumericCoerce r.day_high
    week_52_low := toNumericCoerce r.week_52_low
    week_52_high := toNumericCoerce r.week_52_high
    pe_ratio := toNumericCoerce r.pe_ratio
    eps := toNumericCoerce r.eps
    volume := astypeInt64 (toNumericCoerce r.volume) }

/-- `DataProcessor.standardize_formats`. -/
def standardizeFormats (df : List Row) : List Row :=
  df.map standardizeRow

/-! ## `handle_missing_values` (data_processor.py:106-130) -/

/-- `select_dtypes(include=[np.number])` membership for a column: a column is
numeric exactly when no cell is a string (an all-null column reads back as
float64 and is numeric; any string makes the dtype `object`). -/
def colIsNumeric (col : List Cell) : Bool :=
  col.all (fun c => !c.isStr)

/-- `fillna(v)` on a column: only null cells are replaced; a null fill value
leaves the column unchanged (as `fillna(np.nan)` does). -/
def fillCol (v : Cell) (col : List Cell) : List Cell :=
  col.map (fun c => if c.isNa then v else c)

/-- `fillna(method='ffill')`: each null inherits the nearest preceding
non-null value; `prev` is the carried value (initially null). -/
def ffillGo (prev : Cell) : List Cell → List Cell
  | [] => []
  | c :: cs =>
      let c' := if c.isNa then prev else c
      c' :: ffillGo c' cs

/-- Forward fill of a column. -/
def ffillCol (col : List Cell) : List Cell := ffillGo .na col

/-- Total order used to sort non-NaN floats (−∞ < finite < +∞); the NaN
cases are unreachable (`cellMedian` filters NaN out first). -/
def pfLe : PFloat → PFloat → Bool
  | .nan, _ => true
  | _, .nan => true
  | .inf a, .inf b => !a || b
  | .inf a, .num _ => !a
  | .num _, .inf b => b
  | .num a, .num b => decide (a ≤ b)

/-- Insertion into a `pfLe`-sorted list. -/
def pfInsert (x : PFloat) : List PFloat → List PFloat
  | [] => [x]
  | y :: ys => if pfLe x y then x :: y :: ys else y :: pfInsert x ys

/-- Insertion sort by `pfLe`. -/
def pfSort (l : List PFloat) : List PFloat := l.foldr pfInsert []

/-- Mean of two floats (the even-length case of `np.median`). -/
def pfAvg : PFloat → PFloat → PFloat
  | .num a, .num b => .num ((a + b) / 2)
  | .inf a, .inf b => if a = b then .inf a else .nan
  | .inf a, .num _ => .inf a
  | .num _, .inf b => .inf b
  | _, _ => .nan

/-- Median of a non-empty NaN-free float list, as `np.median`: middle of the
sorted values, or the mean of the two middles. -/
def pfMedian (l : List PFloat) : PFloat :=
  let s := pfSort l
  let n := s.length
  if n % 2 = 1 then s.getD (n / 2) .nan
  else pfAvg (s.getD (n / 2 - 1) .nan) (s.getD (n / 2) .nan)

/-- `Series.median()`: drop nulls, take the median; all-null gives NaN. -/
def cellMedian (col : List Cell) : Cell :=
  match (col.map toPF).filter (fun p => !p.isNaN) with
  | [] => .na
  | vs => pfToCell (pfMedian vs)

/-- Forward fill, applied only when the column is numeric (the
`select_dtypes` guard). -/
def ffillIfNum (col : List Cell) : List Cell :=
  if colIsNumeric col then ffillCol col else col

/-- `fillna(0)`, applied only when the column is numeric. -/
def fill0IfNum (col : List Cell) : List Cell :=
  if colIsNumeric col then fillCol (.fnum 0) col else col

/-- `fillna(column median)`, applied only when the column is numeric. -/
def medianFillIfNum (col : List Cell) : List Cell :=
  if colIsNumeric col then fillCol (cellMedian col) col else col

set_option maxHeartbeats 1000000 in
/-- `DataProcessor.handle_missing_values`: per numeric column — forward fill
for the price columns, zero fill for the change columns, median fill for the
rest — then `company_name.fillna(symbol)`.  The fills are column-independent
(each median is computed from that column's own pre-fill values), so the
rebuild below reassembles rows from the processed columns. -/
def handleMissingValues (df : List Row) : List Row :=
  let sym := df.map (fun r => r.symbol)
  let cp := ffillIfNum (df.map (fun r => r.current_price))
  let pc := ffillIfNum (df.map (fun r => r.previous_close))
  let op := ffillIfNum (df.map (fun r => r.«open»))
  let ch := fill0IfNum (df.map (fun r => r.change))
  let cpct := fill0IfNum (df.map (fun r => r.change_percent))
  let dl := medianFillIfNum (df.map (fun r => r.day_low))
  let dh := medianFillIfNum (df.map (fun r => r.day_high))
  let w5l := medianFillIfNum (df.map (fun r => r.week_52_low))
  let w5h := medianFillIfNum (df.map (fun r => r.week_52_high))
  let pe := medianFillIfNum (df.map (fun r => r.pe_ratio))
  let ep := medianFillIfNum (df.map (fun r => r.eps))
  let vol := medianFillIfNum (df.map (fun r => r.volume))
  let mc := medianFillIfNum (df.map (fun r => r.market_cap))
  let er := medianFillIfNum (df.map (fun r => r.error))
  let pm := medianFillIfNum (df.map (fun r => r.price_momentum))
  let dv := medianFillIfNum (df.map (fun r => r.daily_volatility))
  let mcc := medianFillIfNum (df.map (fun r => r.market_cap_category))
  let pfc := medianFillIfNum (df.map (fun r => r.performance_category))
  let cn0 := medianFillIfNum (df.map (fun r => r.company_name))
  let cn := (cn0.zip sym).map (fun p => if p.1.isNa then Cell.str p.2 else p.1)
  (List.range df.length).map (fun i =>
    { symbol := sym.getD i ""
      company_name := cn.getD i .na
      current_price := cp.getD i .na
      change := ch.getD i .na
      change_percent := cpct.getD i .na
      previous_close := pc.getD i .na
      «open» := op.getD i .na
      day_low := dl.getD i .na
      day_high := dh.getD i .na
      week_52_low := w5l.getD i .na
      week_52_high := w5h.getD i .na
      pe_ratio := pe.getD i .na
      eps := ep.getD i .na
      volume := vol.getD i .na
      market_cap := mc.getD i .na
      error := er.getD i .na
      price_momentum := pm.getD i .na
      daily_volatility := dv.getD i .na
      market_cap_category := mcc.getD i .na
      performance_category := pfc.getD i .na })

/-! ## `add_derived_metrics` (data_processor.py:132-164) -/

/-- `(current_price - previous_close) / previous_close * 100` with float64
semantics (data_processor.py:138-141). -/
def pmomCell (cp pc : Cell) : Cell :=
  pfToCell (pfMul (pfDiv (pfSub (toPF cp) (toPF pc)) (toPF pc)) (.num 100))

/-- `(day_high - day_low) / current_price * 100` with float64 semantics
(data_processor.py:145-148). -/
def dvolCell (dh dl cp : Cell) : Cell :=
  pfToCell (pfMul (pfDiv (pfSub (toPF dh) (toPF dl)) (toPF cp)) (.num 100))

/-- The per-row effect of `add_derived_metrics` (all guarding columns are
present in the fixed schema). -/
def addDerivedRow (r : Row) : Row :=
  { r with
    price_momentum := pmomCell r.current_price r.previous_close
    daily_volatility := dvolCell r.day_high r.day_low r.current_price
    market_cap_category := .str (categorizeMarketCap r.market_cap)
    performance_category := .str (categorizePerformance r.change_percent) }

/-- `DataProcessor.add_derived_metrics`. -/
def addDerivedMetrics (df : List Row) : List Row :=
  df.map addDerivedRow

/-- The four-step body of `process_data` (data_processor.py:40-43). -/
def pipeline (df : List Row) : List Row :=
  addDerivedMetrics (handleMissingValues (standardizeFormats (cleanData df)))

/-! ## `process_data` (data_processor.py:25-51)

The whole body sits in a `try`/`except Exception` that returns `None`; any
step may raise inside pandas (e.g. `to_datetime` on a malformed timestamp or
`astype` on an unsafe cast), so the steps are abstract `Except`-valued
arguments; `load` models `pd.read_csv`. -/

def processData (load : Except String (List Row))
    (clean std fill derive : List Row → Except String (List Row)) :
    Option (List Row) :=
  let body : Except String (Option (List Row)) := do
    let df ← load
    if df.isEmpty then
      pure none
    else do
      let d1 ← clean df
      let d2 ← std d1
      let d3 ← fill d2
      let d4 ← derive d3
      pure (some d4)
  match body with
  | .error _ => none
  | .ok r => r

/-- The concrete instantiation: the modelled (total) pandas steps, raising
nowhere. -/
def processDataPure (load : Except String (List Row)) : Option (List Row) :=
  processData load (fun df => .ok (cleanData df)) (fun df => .ok (standardizeFormats df))
    (fun df => .ok (handleMissingValues df)) (fun df => .ok (addDerivedMetrics df))

/-! ## `StockScraper.scrape_multiple_stocks` (scraper.py:101-131) -/

/-- The per-symbol record `scrape_stock_data` returns: the scraped payload
fields (only the ones the aggregation logic touches are carried) and the
`error` tag, present exactly on the fallback/failure record. -/
structure StockData where
  symbol : String
  current_price : Cell := .na
  change : Cell := .na
  change_percent : Cell := .na
  error : Option String := none
deriving DecidableEq, Repr

/-- `StockScraper.scrape_multiple_stocks`: fetch each symbol in order
(`scrape` abstracts `scrape_stock_data`, which catches its own exceptions),
append only the records without an `error` key, and return `None` when no
record was collected (the inter-symbol `time.sleep` pacing has no data
effect). -/
def scrapeMultipleStocks (scrape : String → StockData) (symbols : List String) :
    Option (List StockData) :=
  let all := (symbols.map scrape).filter (fun d => d.error.isNone)
  if all.isEmpty then none else some all

/-! ## List and cell infrastructure lemmas -/

theorem Cell.isNa_iff {c : Cell} : c.isNa = true ↔ c = .na := by
  cases c <;> simp [Cell.isNa]

theorem Cell.isNa_false_iff {c : Cell} : c.isNa = false ↔ c ≠ .na := by
  cases c <;> simp [Cell.isNa]

theorem range_map_getD {α : Type} : ∀ (l : List α) (d : α),
    (List.range l.length).map (fun i => l.getD i d) = l
  | [], _ => by simp
  | a :: t, d => by
      rw [List.length_cons, List.range_succ_eq_map, List.map_cons, List.map_map]
      simp only [Function.comp_def, List.getD_cons_zero, List.getD_cons_succ]
      rw [range_map_getD t d]

theorem rebuild_col {α : Type} {n : ℕ} (l : List α) (d : α) (h : l.length = n) :
    (List.range n).map (fun i => l.getD i d) = l := by
  subst h
  exact range_map_getD l d

theorem ffillGo_length (prev : Cell) (l : List Cell) :
    (ffillGo prev l).length = l.length := by
  induction l generalizing prev with
  | nil => rfl
  | cons c cs ih => simp [ffillGo, ih]

theorem ffillCol_length (l : List Cell) : (ffillCol l).length = l.length :=
  ffillGo_length _ _

theorem fillCol_length (v : Cell) (l : List Cell) : (fillCol v l).length = l.length := by
  simp [fillCol]

theorem ffillIfNum_length (l : List Cell) : (ffillIfNum l).length = l.length := by
  unfold ffillIfNum
  split <;> simp [ffillCol_length]

theorem fill0IfNum_length (l : List Cell) : (fill0IfNum l).length = l.length := by
  unfold fill0IfNum
  split <;> simp [fillCol_length]

theorem medianFillIfNum_length (l : List Cell) : (medianFillIfNum l).length = l.length := by
  unfold medianFillIfNum
  split <;> simp [fillCol_length]

/-! Projections of `handleMissingValues` onto single columns. -/

theorem hmv_map_current_price (df : List Row) :
    (handleMissingValues df).map (fun r => r.current_price) =
      ffillIfNum (df.map (fun r => r.current_price)) := by
  simp only [handleMissingValues, List.map_map]
  exact rebuild_col _ _ (by simp [ffillIfNum_length])

theorem hmv_map_previous_close (df : List Row) :
    (handleMissingValues df).map (fun r => r.previous_close) =
      ffillIfNum (df.map (fun r => r.previous_close)) := by
  simp only [handleMissingValues, List.map_map]
  exact rebuild_col _ _ (by simp [ffillIfNum_length])

theorem hmv_map_open (df : List Row) :
    (handleMissingValues df).map (fun r => r.«open») =
      ffillIfNum (df.map (fun r => r.«open»)) := by
  simp only [handleMissingValues, List.map_map]
  exact rebuild_col _ _ (by simp [ffillIfNum_length])

theorem hmv_map_change_percent (df : List Row) :
    (handleMissingValues df).map (fun r => r.change_percent) =
      fill0IfNum (df.map (fun r => r.change_percent)) := by
  simp only [handleMissingValues, List.map_map]
  exact rebuild_col _ _ (by simp [fill0IfNum_length])

theorem hmv_map_day_low (df : List Row) :
    (handleMissingValues df).map (fun r => r.day_low) =
      medianFillIfNum (df.map (fun r => r.day_low)) := by
  simp only [handleMissingValues, List.map_map]
  exact rebuild_col _ _ (by simp [medianFillIfNum_length])

theorem hmv_map_day_high (df : List Row) :
    (handleMissingValues df).map (fun r => r.day_high) =
      medianFillIfNum (df.map (fun r => r.day_high)) := by
  simp only [handleMissingValues, List.map_map]
  exact rebuild_col _ _ (by simp [medianFillIfNum_length])

theorem hmv_map_market_cap (df : List Row) :
    (handleMissingValues df).map (fun r => r.market_cap) =
      medianFillIfNum (df.map (fun r => r.market_cap)) := by
  simp only [handleMissingValues, List.map_map]
  exact rebuild_col _ _ (by simp [medianFillIfNum_length])

theorem hmv_map_error (df : List Row) :
    (handleMissingValues df).map (fun r => r.error) =
      medianFillIfNum (df.map (fun r => r.error)) := by
  simp only [handleMissingValues, List.map_map]
  exact rebuild_col _ _ (by simp [medianFillIfNum_length])

/-! ## Claim C2 — batch failure signal of `scrape_multiple_stocks` -/

/-- C2: on a non-empty batch, `scrape_multiple_stocks` returns the explicit
no-data signal `None` when every symbol's fetch fails, returns a dataset when
at least one symbol succeeds, and never returns a zero-row "successful"
dataset — so the failure signal is distinguishable from an empty success. -/
theorem scrape_multiple_stocks_batch_failure_signal
    (scrape : String → StockData) (symbols : List String) (hne : symbols ≠ []) :
    ((∀ s ∈ symbols, (scrape s).error ≠ none) →
        scrapeMultipleStocks scrape symbols = none)
    ∧ ((∃ s ∈ symbols, (scrape s).error = none) →
        ∃ df, scrapeMultipleStocks scrape symbols = some df ∧ df ≠ [])
    ∧ (∀ df, scrapeMultipleStocks scrape symbols = some df → df ≠ []) := by
  unfold scrapeMultipleStocks
  refine ⟨?_, ?_, ?_⟩
  · intro hall
    have hnil : (symbols.map scrape).filter (fun d => d.error.isNone) = [] := by
      rw [List.filter_eq_nil_iff]
      intro d hd
      obtain ⟨s, hs, rfl⟩ := List.mem_map.mp hd
      simp [Option.isNone_iff_eq_none, hall s hs]
    simp [hnil]
  · rintro ⟨s, hs, hok⟩
    have hmem : scrape s ∈ (symbols.map scrape).filter (fun d => d.error.isNone) := by
      rw [List.mem_filter]
      exact ⟨List.mem_map_of_mem scrape hs, by simp [Option.isNone_iff_eq_none, hok]⟩
    have hne' : (symbols.map scrape).filter (fun d => d.error.isNone) ≠ [] :=
      List.ne_nil_of_mem hmem
    refine ⟨(symbols.map scrape).filter (fun d => d.error.isNone), ?_, hne'⟩
    simp [List.isEmpty_iff, hne']
  · intro df hdf
    by_cases h : ((symbols.map scrape).filter (fun d => d.error.isNone)).isEmpty
    · simp [h] at hdf
    · simp only [h, if_false] at hdf
      cases hdf
      exact List.isEmpty_iff.not.mp h ∘ fun h' => h' ▸ rfl

/-- C2 witness: a one-symbol batch whose only fetch fails yields `none`. -/
theorem scrape_multiple_stocks_batch_failure_signal_witness :
    scrapeMultipleStocks (fun s => { symbol := s, error := some "Could not fetch data" })
      ["AAPL"] = none :=
  (scrape_multiple_stocks_batch_failure_signal _ ["AAPL"] (by simp)).1
    (by intro s _; simp)

/-! ## Claim C3 — one record per attempted symbol? -/

/-- A concrete fetch outcome: `AAPL` succeeds, everything else returns the
tagged fallback-failure record of `scrape_stock_data`. -/
def fetchEx : String → StockData := fun s =>
  if s = "AAPL" then { symbol := s, current_price := .fnum 100 }
  else { symbol := s, error := some "Could not fetch data" }

/-- C3 counterexample: with two attempted symbols of which one fails, the
returned dataset has one record, not one per attempted symbol — the
tagged-failure record is dropped, contradicting the claim. -/
theorem scrape_multiple_stocks_drops_failed_counterexample :
    (scrapeMultipleStocks fetchEx ["AAPL", "MSFT"]).map List.length = some 1
    ∧ ["AAPL", "MSFT"].length = 2 := by
  constructor
  · rfl
  · rfl

/-- C3 amended: the dataset returned by `scrape_multiple_stocks` contains
exactly the records of the *successfully fetched* symbols (the tagged-failure
records are filtered out, not included), in input symbol order — it is the
in-order sublist of per-symbol outcomes whose `error` tag is absent. -/
theorem scrape_multiple_stocks_success_only_ordered
    (scrape : String → StockData) (symbols : List String) (df : List StockData)
    (h : scrapeMultipleStocks scrape symbols = some df) :
    df = (symbols.map scrape).filter (fun d => d.error.isNone)
    ∧ (∀ r ∈ df, r.error = none)
    ∧ df.Sublist (symbols.map scrape) := by
  unfold scrapeMultipleStocks at h
  by_cases he : ((symbols.map scrape).filter (fun d => d.error.isNone)).isEmpty = true
  · rw [if_pos he] at h
    exact absurd h (by simp)
  · rw [if_neg he] at h
    have hdf : df = (symbols.map scrape).filter (fun d => d.error.isNone) :=
      (Option.some.inj h).symm
    subst hdf
    refine ⟨rfl, ?_, List.filter_sublist _⟩
    intro r hr
    have := (List.mem_filter.mp hr).2
    simpa [Option.isNone_iff_eq_none] using this

/-- C3 amended witness: the concrete two-symbol batch returns exactly the
filtered success records. -/
theorem scrape_multiple_stocks_success_only_ordered_witness :
    [({ symbol := "AAPL", current_price := .fnum 100 } : StockData)] =
      (["AAPL", "MSFT"].map fetchEx).filter (fun d => d.error.isNone) :=
  (scrape_multiple_stocks_success_only_ordered fetchEx ["AAPL", "MSFT"] _ rfl).1

/-! ## Claim C4 — `clean_volume_value` -/

/-- Modelled from the claim's words (C4, spec §4.3): the suffix scan as the
claim states it (identical to the code), but with the no-suffix branch read
literally — "strips the non-digit characters and parses an integer". Used
only to compare the claim's reading with the code's `cleanVolumeValue`. -/
def cleanVolumeClaim (s : String) : Cell :=
  let vu := (s.toList.map Char.toUpper).filter (fun c => c ≠ ',')
  if vu.contains 'K' then volumeSuffixParse vu 'K' 1000
  else if vu.contains 'M' then volumeSuffixParse vu 'M' 1000000
  else if vu.contains 'B' then volumeSuffixParse vu 'B' 1000000000
  else
    let digs := s.toList.filter Char.isDigit
    if digs.isEmpty then .na else .inum (digitsVal digs)

/-- C4 counterexample: on `"1.5"` (no suffix) the code keeps the decimal
point, parses `1.5` and truncates to `1`, while the claim's "strip non-digit
characters and parse an integer" reading yields `15` — the claim as stated is
false for this input. -/
theorem clean_volume_no_suffix_counterexample :
    cleanVolumeValue (.str "1.5") = .inum 1
    ∧ cleanVolumeClaim "1.5" = .inum 15
    ∧ cleanVolumeValue (.str "1.5") ≠ cleanVolumeClaim "1.5" := by
  refine ⟨by decide, by decide, by decide⟩

/-- C4 amended: `clean_volume_value` uppercases and comma-strips the text,
tries the suffixes `K`, `M`, `B` in that priority order by containment —
stripping every occurrence of the matched suffix, parsing the rest as a
float, scaling by 1e3/1e6/1e9 and truncating to an integer, null on parse
failure — and with no suffix strips every character outside `[0-9.]`, parses
the rest as a float and truncates to an integer (null on failure); the
claim's four concrete examples hold. -/
theorem clean_volume_value_amended :
    cleanVolumeValue (.str "1.2M") = .inum 1200000
    ∧ cleanVolumeValue (.str "950K") = .inum 950000
    ∧ cleanVolumeValue (.str "2B") = .inum 2000000000
    ∧ cleanVolumeValue (.str "12,345") = .inum 12345
    ∧ cleanVolumeValue .na = .na
    ∧ (∀ s : String,
        ((s.toList.map Char.toUpper).filter (fun c => c ≠ ',')).contains 'K' = true →
        cleanVolumeValue (.str s) =
          volumeSuffixParse ((s.toList.map Char.toUpper).filter (fun c => c ≠ ',')) 'K' 1000)
    ∧ (∀ s : String,
        ((s.toList.map Char.toUpper).filter (fun c => c ≠ ',')).contains 'K' = false →
        ((s.toList.map Char.toUpper).filter (fun c => c ≠ ',')).contains 'M' = true →
        cleanVolumeValue (.str s) =
          volumeSuffixParse ((s.toList.map Char.toUpper).filter (fun c => c ≠ ',')) 'M' 1000000)
    ∧ (∀ s : String,
        ((s.toList.map Char.toUpper).filter (fun c => c ≠ ',')).contains 'K' = false →
        ((s.toList.map Char.toUpper).filter (fun c => c ≠ ',')).contains 'M' = false →
        ((s.toList.map Char.toUpper).filter (fun c => c ≠ ',')).contains 'B' = true →
        cleanVolumeValue (.str s) =
          volumeSuffixParse ((s.toList.map Char.toUpper).filter (fun c => c ≠ ',')) 'B' 1000000000)
    ∧ (∀ s : String,
        ((s.toList.map Char.toUpper).filter (fun c => c ≠ ',')).contains 'K' = false →
        ((s.toList.map Char.toUpper).filter (fun c => c ≠ ',')).contains 'M' = false →
        ((s.toList.map Char.toUpper).filter (fun c => c ≠ ',')).contains 'B' = false →
        cleanVolumeValue (.str s) = volumeNoSuffixParse s)
    ∧ (∀ s : String, ∀ q : ℚ,
        pyFloatOfChars (s.toList.filter (fun c => c.isDigit || c = '.')) = some (.num q) →
        volumeNoSuffixParse s = .inum (pyTrunc q))
    ∧ (∀ s : String,
        pyFloatOfChars (s.toList.filter (fun c => c.isDigit || c = '.')) = none →
        volumeNoSuffixParse s = .na) := by
  have hstr : ∀ s : String, cleanVolumeValue (.str s) =
      (if ((s.toList.map Char.toUpper).filter (fun c => c ≠ ',')).contains 'K' then
        volumeSuffixParse ((s.toList.map Char.toUpper).filter (fun c => c ≠ ',')) 'K' 1000
      else if ((s.toList.map Char.toUpper).filter (fun c => c ≠ ',')).contains 'M' then
        volumeSuffixParse ((s.toList.map Char.toUpper).filter (fun c => c ≠ ',')) 'M' 1000000
      else if ((s.toList.map Char.toUpper).filter (fun c => c ≠ ',')).contains 'B' then
        volumeSuffixParse ((s.toList.map Char.toUpper).filter (fun c => c ≠ ',')) 'B'
          1000000000
      else volumeNoSuffixParse s) := fun s => rfl
  refine ⟨by decide, by decide, by decide, by decide, rfl, ?_, ?_, ?_, ?_, ?_, ?_⟩
  · intro s hK
    rw [hstr, if_pos hK]
  · intro s hK hM
    rw [hstr, if_neg (by rw [hK]; exact Bool.false_ne_true), if_pos hM]
  · intro s hK hM hB
    rw [hstr, if_neg (by rw [hK]; exact Bool.false_ne_true),
      if_neg (by rw [hM]; exact Bool.false_ne_true), if_pos hB]
  · intro s hK hM hB
    rw [hstr, if_neg (by rw [hK]; exact Bool.false_ne_true),
      if_neg (by rw [hM]; exact Bool.false_ne_true),
      if_neg (by rw [hB]; exact Bool.false_ne_true)]
  · intro s q hq
    unfold volumeNoSuffixParse
    rw [hq]
  · intro s hq
    unfold volumeNoSuffixParse
    rw [hq]

/-- C4 amended witness: the `M` branch applied to `"1.2M"`. -/
theorem clean_volume_value_amended_witness :
    cleanVolumeValue (.str "1.2M") =
      volumeSuffixParse (("1.2M".toList.map Char.toUpper).filter (fun c => c ≠ ','))
        'M' 1000000 :=
  clean_volume_value_amended.2.2.2.2.2.2.1 "1.2M" (by decide) (by decide)

/-! ## Claim C5 — `clean_numeric_value` -/

/-- C5: `clean_numeric_value` strips every character outside `[0-9.-]` from a
string and parses the remainder as a float, returning null on an empty or
unparseable remainder; null input stays null; the claim's concrete examples
hold. -/
theorem clean_numeric_value_spec :
    cleanNumericValue (.str "$123.45") = .fnum (123.45 : ℚ)
    ∧ cleanNumericValue (.str "") = .na
    ∧ cleanNumericValue .na = .na
    ∧ (∀ s : String,
        s.toList.filter (fun c => c.isDigit || c = '.' || c = '-') = [] →
        cleanNumericValue (.str s) = .na)
    ∧ (∀ s : String, ∀ pf : PFloat,
        pyFloatOfChars (s.toList.filter (fun c => c.isDigit || c = '.' || c = '-')) =
          some pf →
        cleanNumericValue (.str s) = pfToCell pf)
    ∧ (∀ s : String,
        pyFloatOfChars (s.toList.filter (fun c => c.isDigit || c = '.' || c = '-')) =
          none →
        cleanNumericValue (.str s) = .na) := by
  have hstr : ∀ s : String, cleanNumericValue (.str s) =
      (if (s.toList.filter (fun c => c.isDigit || c = '.' || c = '-')).isEmpty then Cell.na
       else
        match pyFloatOfChars (s.toList.filter (fun c => c.isDigit || c = '.' || c = '-')) with
        | some pf => pfToCell pf
        | none => Cell.na) := fun s => rfl
  refine ⟨by decide, rfl, rfl, ?_, ?_, ?_⟩
  · intro s hempty
    rw [hstr, if_pos (by rw [hempty]; rfl)]
  · intro s pf hpf
    have hne : ¬((s.toList.filter (fun c => c.isDigit || c = '.' || c = '-')).isEmpty = true) := by
      intro habs
      rw [List.isEmpty_iff] at habs
      rw [habs] at hpf
      exact Option.noConfusion hpf
    rw [hstr, if_neg hne, hpf]
  · intro s hpf
    by_cases hempty :
        (s.toList.filter (fun c => c.isDigit || c = '.' || c = '-')).isEmpty = true
    · rw [hstr, if_pos hempty]
    · rw [hstr, if_neg hempty, hpf]

/-- C5 witness: the `$123.45` example through the general parse clause. -/
theorem clean_numeric_value_spec_witness :
    cleanNumericValue (.str "$123.45") = pfToCell (.num (2469 / 20 : ℚ)) :=
  clean_numeric_value_spec.2.2.2.2.1 "$123.45" (.num (2469 / 20 : ℚ)) (by decide)

/-! ## Claim C8 — `categorize_market_cap` -/

/-- `List.contains` and membership agree on characters. -/
theorem char_contains_iff {l : List Char} {c : Char} : l.contains c = true ↔ c ∈ l := by
  simp [List.contains]

/-- C8: `market_cap_category` is substring containment on the raw market_cap
string in priority order `T` → Mega Cap, `B` → Large Cap, `M` → Mid Cap, else
Small Cap, with null mapping to Unknown — and `add_derived_metrics` fills the
column exactly this way. -/
theorem categorize_market_cap_spec :
    categorizeMarketCap .na = "Unknown"
    ∧ (∀ s : String, 'T' ∈ s.toList → categorizeMarketCap (.str s) = "Mega Cap")
    ∧ (∀ s : String, 'T' ∉ s.toList → 'B' ∈ s.toList →
        categorizeMarketCap (.str s) = "Large Cap")
    ∧ (∀ s : String, 'T' ∉ s.toList → 'B' ∉ s.toList → 'M' ∈ s.toList →
        categorizeMarketCap (.str s) = "Mid Cap")
    ∧ (∀ s : String, 'T' ∉ s.toList → 'B' ∉ s.toList → 'M' ∉ s.toList →
        categorizeMarketCap (.str s) = "Small Cap")
    ∧ (∀ df : List Row, (addDerivedMetrics df).map (fun r => r.market_cap_category) =
        df.map (fun r => Cell.str (categorizeMarketCap r.market_cap))) := by
  have hpos : ∀ {l : List Char} {c : Char}, c ∈ l → l.contains c = true :=
    fun h => char_contains_iff.mpr h
  have hneg : ∀ {l : List Char} {c : Char}, c ∉ l → ¬(l.contains c = true) :=
    fun h => fun habs => h (char_contains_iff.mp habs)
  refine ⟨rfl, ?_, ?_, ?_, ?_, ?_⟩
  · intro s hT
    show (if s.toList.contains 'T' then "Mega Cap" else _) = _
    rw [if_pos (hpos hT)]
  · intro s hT hB
    show (if s.toList.contains 'T' then "Mega Cap" else _) = _
    rw [if_neg (hneg hT), if_pos (hpos hB)]
  · intro s hT hB hM
    show (if s.toList.contains 'T' then "Mega Cap" else _) = _
    rw [if_neg (hneg hT), if_neg (hneg hB), if_pos (hpos hM)]
  · intro s hT hB hM
    show (if s.toList.contains 'T' then "Mega Cap" else _) = _
    rw [if_neg (hneg hT), if_neg (hneg hB), if_neg (hneg hM)]
  · intro df
    simp only [addDerivedMetrics, List.map_map]
    rfl

/-- C8 witness: `"1.2T"` lands in Mega Cap through the priority clause. -/
theorem categorize_market_cap_spec_witness :
    categorizeMarketCap (.str "1.2T") = "Mega Cap" :=
  categorize_market_cap_spec.2.1 "1.2T" (by decide)

/-! ## Claim C1 — `price_momentum` / `daily_volatility` -/

/-- C1 counterexample: on `current_price = 100`, `previous_close = 0` the
derived momentum is `+inf` (numpy division by zero), not null — the claim's
zero-divisor guard does not exist in the code. -/
theorem price_momentum_zero_divisor_counterexample :
    (addDerivedMetrics
        [{ symbol := "X", current_price := .fnum 100, previous_close := .fnum 0 }]).map
      (fun r => r.price_momentum) = [.pinf true]
    ∧ Cell.pinf true ≠ Cell.na := by
  refine ⟨by decide, by decide⟩

/-- C1 amended: `add_derived_metrics` computes
`price_momentum = (current_price − previous_close)/previous_close × 100` with
float64 semantics — the stated formula when both operands are non-null finite
and `previous_close ≠ 0`, null (NaN) when either operand is null, but a
signed infinity (NaN if also `current_price = 0`), *not* null, when
`previous_close = 0`; `daily_volatility = (day_high − day_low)/current_price
× 100` behaves the same with divisor `current_price`.  The `110/100 → 10.0`
example holds. -/
theorem price_momentum_daily_volatility_amended :
    (∀ df : List Row, (addDerivedMetrics df).map (fun r => r.price_momentum) =
        df.map (fun r => pmomCell r.current_price r.previous_close))
    ∧ (∀ c p : ℚ, p ≠ 0 →
        pmomCell (.fnum c) (.fnum p) = .fnum ((c - p) / p * 100))
    ∧ pmomCell (.fnum 110) (.fnum 100) = .fnum 10
    ∧ (∀ x : Cell, pmomCell .na x = .na)
    ∧ (∀ x : Cell, pmomCell x .na = .na)
    ∧ (∀ c : ℚ, c ≠ 0 → pmomCell (.fnum c) (.fnum 0) = .pinf (decide (0 < c)))
    ∧ pmomCell (.fnum 0) (.fnum 0) = .na
    ∧ (∀ df : List Row, (addDerivedMetrics df).map (fun r => r.daily_volatility) =
        df.map (fun r => dvolCell r.day_high r.day_low r.current_price))
    ∧ (∀ h l c : ℚ, c ≠ 0 →
        dvolCell (.fnum h) (.fnum l) (.fnum c) = .fnum ((h - l) / c * 100))
    ∧ (∀ x y : Cell, dvolCell .na x y = .na)
    ∧ (∀ x y : Cell, dvolCell x .na y = .na)
    ∧ (∀ x y : Cell, dvolCell x y .na = .na)
    ∧ (∀ h l : ℚ, h - l ≠ 0 →
        dvolCell (.fnum h) (.fnum l) (.fnum 0) = .pinf (decide (0 < h - l))) := by
  refine ⟨?_, ?_, by decide, ?_, ?_, ?_, by decide, ?_, ?_, ?_, ?_, ?_, ?_⟩
  · intro df
    simp only [addDerivedMetrics, List.map_map]
    rfl
  · intro c p hp
    simp [pmomCell, toPF, pfSub, pfDiv, pfMul, pfToCell, hp]
  · intro x
    cases x <;> rfl
  · intro x
    cases x <;> rfl
  · intro c hc
    simp [pmomCell, toPF, pfSub, pfDiv, pfMul, pfToCell, hc]
  · intro df
    simp only [addDerivedMetrics, List.map_map]
    rfl
  · intro h l c hc
    simp [dvolCell, toPF, pfSub, pfDiv, pfMul, pfToCell, hc]
  · intro x y
    cases x <;> cases y <;> rfl
  · intro x y
    cases x <;> cases y <;> rfl
  · intro x y
    have h1 : ∀ p : PFloat, pfDiv p .nan = .nan := fun p => by cases p <;> rfl
    show pfToCell (pfMul (pfDiv (pfSub (toPF x) (toPF y)) .nan) (.num 100)) = .na
    rw [h1]
    rfl
  · intro h l hd
    simp [dvolCell, toPF, pfSub, pfDiv, pfMul, pfToCell, hd]

/-- C1 amended witness: the claim's own `110/100` example through the general
formula clause. -/
theorem price_momentum_daily_volatility_amended_witness :
    pmomCell (.fnum 110) (.fnum 100) = .fnum ((110 - 100) / 100 * 100 : ℚ) :=
  price_momentum_daily_volatility_amended.2.1 110 100 (by norm_num)

/-! ## Claim C7 — `clean_data` drops exactly the error rows -/

/-- C7: `clean_data` removes exactly the rows whose `error` field is set:
every surviving row has a null `error`, every null-error row survives (as its
cleaned image), every output row is the cleaned image of some null-error
input row, and the whole step is the filter-then-clean composition. -/
theorem clean_data_drops_error_rows :
    (∀ df : List Row, ∀ x ∈ cleanData df, x.error = .na)
    ∧ (∀ df : List Row, ∀ r ∈ df, r.error = .na → cleanRow r ∈ cleanData df)
    ∧ (∀ df : List Row, ∀ x ∈ cleanData df, ∃ r ∈ df, r.error = .na ∧ x = cleanRow r)
    ∧ (∀ df : List Row, cleanData df = (df.filter (fun r => r.error.isNa)).map cleanRow) := by
  have herr : ∀ r : Row, (cleanRow r).error = r.error := fun r => rfl
  refine ⟨?_, ?_, ?_, fun df => rfl⟩
  · intro df x hx
    obtain ⟨r, hr, rfl⟩ := List.mem_map.mp hx
    have := (List.mem_filter.mp hr).2
    rw [herr]
    exact Cell.isNa_iff.mp this
  · intro df r hr he
    exact List.mem_map_of_mem _ (List.mem_filter.mpr ⟨hr, Cell.isNa_iff.mpr he⟩)
  · intro df x hx
    obtain ⟨r, hr, rfl⟩ := List.mem_map.mp hx
    exact ⟨r, (List.mem_filter.mp hr).1, Cell.isNa_iff.mp (List.mem_filter.mp hr).2, rfl⟩

/-- C7 witness: a two-row frame — the null-error row's cleaned image is in the
output. -/
theorem clean_data_drops_error_rows_witness :
    cleanRow { symbol := "A" } ∈
      cleanData [{ symbol := "A" }, { symbol := "B", error := .str "boom" }] :=
  clean_data_drops_error_rows.2.1
    [{ symbol := "A" }, { symbol := "B", error := .str "boom" }]
    { symbol := "A" } (by simp) rfl

/-! ## Claim C10 — `process_data` never raises -/

/-- C10: the `try`/`except` of `process_data` converts every failure into the
null result: a failed load, an empty loaded dataset, and an exception from
any of the four steps all yield `None`; a dataset is returned only when the
load succeeds on a non-empty frame and every step completes, and on the
modelled (total) steps the result is exactly the pipeline output. -/
theorem process_data_no_exception_spec
    (load : Except String (List Row))
    (clean std fill derive : List Row → Except String (List Row)) :
    (∀ e, load = .error e → processData load clean std fill derive = none)
    ∧ (load = .ok [] → processData load clean std fill derive = none)
    ∧ (∀ df, load = .ok df → df ≠ [] → ∀ e, clean df = .error e →
        processData load clean std fill derive = none)
    ∧ (∀ df d1, load = .ok df → df ≠ [] → clean df = .ok d1 → ∀ e, std d1 = .error e →
        processData load clean std fill derive = none)
    ∧ (∀ df d1 d2, load = .ok df → df ≠ [] → clean df = .ok d1 → std d1 = .ok d2 →
        ∀ e, fill d2 = .error e →
        processData load clean std fill derive = none)
    ∧ (∀ df d1 d2 d3, load = .ok df → df ≠ [] → clean df = .ok d1 → std d1 = .ok d2 →
        fill d2 = .ok d3 → ∀ e, derive d3 = .error e →
        processData load clean std fill derive = none)
    ∧ (∀ out, processData load clean std fill derive = some out →
        ∃ df d1 d2 d3, load = .ok df ∧ df ≠ [] ∧ clean df = .ok d1 ∧ std d1 = .ok d2
          ∧ fill d2 = .ok d3 ∧ derive d3 = .ok out)
    ∧ (∀ df : List Row, df ≠ [] → processDataPure (.ok df) = some (pipeline df)) := by
  refine ⟨?_, ?_, ?_, ?_, ?_, ?_, ?_, ?_⟩
  · intro e he
    subst he
    rfl
  · intro he
    subst he
    rfl
  · intro df hl hne e hc
    subst hl
    simp [processData, Except.bind, List.isEmpty_iff, hne, hc, Bind.bind, Pure.pure, Except.pure]
  · intro df d1 hl hne hc e hs
    subst hl
    simp [processData, Except.bind, List.isEmpty_iff, hne, hc, hs, Bind.bind, Pure.pure, Except.pure]
  · intro df d1 d2 hl hne hc hs e hf
    subst hl
    simp [processData, Except.bind, List.isEmpty_iff, hne, hc, hs, hf, Bind.bind, Pure.pure, Except.pure]
  · intro df d1 d2 d3 hl hne hc hs hf e hd
    subst hl
    simp [processData, Except.bind, List.isEmpty_iff, hne, hc, hs, hf, hd, Bind.bind, Pure.pure, Except.pure]
  · intro out hout
    cases load with
    | error e =>
        exact absurd hout (by simp [processData, Except.bind, Bind.bind, Pure.pure, Except.pure])
    | ok df =>
        by_cases hne : df = []
        · subst hne
          exact absurd hout (by simp [processData, Except.bind, Bind.bind, Pure.pure, Except.pure])
        · refine ⟨df, ?_⟩
          cases hc : clean df with
          | error e =>
              exact absurd hout
                (by simp [processData, Except.bind, Bind.bind, List.isEmpty_iff, hne, hc, Pure.pure, Except.pure])
          | ok d1 =>
              cases hs : std d1 with
              | error e =>
                  exact absurd hout (by
                    simp [processData, Except.bind, Bind.bind, List.isEmpty_iff, hne, hc, hs, Pure.pure, Except.pure])
              | ok d2 =>
                  cases hf : fill d2 with
                  | error e =>
                      exact absurd hout (by
                        simp [processData, Except.bind, Bind.bind, List.isEmpty_iff, hne,
                          hc, hs, hf, Pure.pure, Except.pure])
                  | ok d3 =>
                      cases hd : derive d3 with
                      | error e =>
                          exact absurd hout (by
                            simp [processData, Except.bind, Bind.bind, List.isEmpty_iff,
                              hne, hc, hs, hf, hd, Pure.pure, Except.pure])
                      | ok d4 =>
                          have : some d4 = some out := by
                            rw [← hout]
                            simp [processData, Except.bind, Bind.bind, List.isEmpty_iff,
                              hne, hc, hs, hf, hd, Pure.pure, Except.pure]
                          cases this
                          refine ⟨d1, d2, d3, ?_, ?_, ?_, ?_, ?_, ?_⟩ <;>
                            first | rfl | assumption
  · intro df hne
    simp [processDataPure, processData, Except.bind, Bind.bind, List.isEmpty_iff, hne,
      pipeline, Pure.pure, Except.pure]

/-- C10 witness: the pure pipeline instantiation on a one-row frame. -/
theorem process_data_no_exception_spec_witness :
    processDataPure (.ok [{ symbol := "A" }]) = some (pipeline [{ symbol := "A" }]) :=
  (process_data_no_exception_spec (.ok [{ symbol := "A" }])
      (fun df => .ok (cleanData df)) (fun df => .ok (standardizeFormats df))
      (fun df => .ok (handleMissingValues df))
      (fun df => .ok (addDerivedMetrics df))).2.2.2.2.2.2.2
    [{ symbol := "A" }] (by simp)

/-! ## Claim C6 — forward fill of the price columns -/

theorem getLastD_cons (a : Cell) (l : List Cell) (d : Cell) :
    ((a :: l).getLast?).getD d = (l.getLast?).getD a := by
  cases l with
  | nil => rfl
  | cons b t =>
      cases hx : (b :: t).getLast? with
      | none => simp at hx
      | some x => simp [List.getLast?_cons_cons, hx]

/-- The forward-filled column at index `i` is the last non-null entry of the
input prefix up to `i`, or the carried `prev` when the prefix is all null. -/
theorem ffillGo_getD (col : List Cell) : ∀ (prev : Cell) (i : ℕ), i < col.length →
    (ffillGo prev col).getD i .na =
      (((col.take (i + 1)).filter (fun c => !c.isNa)).getLast?).getD prev := by
  induction col with
  | nil => intro prev i h; simp at h
  | cons c cs ih =>
      intro prev i h
      cases i with
      | zero =>
          by_cases hc : c.isNa = true
          · simp [ffillGo, hc, List.filter_cons]
          · simp [ffillGo, hc, List.filter_cons]
      | succ i =>
          have hi : i < cs.length := by simpa using Nat.lt_of_succ_lt_succ h
          by_cases hc : c.isNa = true
          · have lhs : (ffillGo prev (c :: cs)).getD (i + 1) .na =
                (ffillGo prev cs).getD i .na := by
              simp [ffillGo, hc]
            rw [lhs, ih prev i hi]
            simp [List.take_succ_cons, List.filter_cons, hc]
          · have lhs : (ffillGo prev (c :: cs)).getD (i + 1) .na =
                (ffillGo c cs).getD i .na := by
              simp [ffillGo, hc]
            rw [lhs, ih c i hi]
            rw [List.take_succ_cons, List.filter_cons]
            simp only [hc, Bool.not_false, if_true]
            rw [getLastD_cons]

/-- Same statement for the whole column (initial carry is null). -/
theorem ffillCol_getD (col : List Cell) (i : ℕ) (h : i < col.length) :
    (ffillCol col).getD i .na =
      (((col.take (i + 1)).filter (fun c => !c.isNa)).getLast?).getD .na :=
  ffillGo_getD col .na i h

/-- A leading null with no preceding non-null value stays null. -/
theorem ffillCol_leading_na (col : List Cell) (i : ℕ) (h : i < col.length)
    (hall : ∀ j, j ≤ i → col.getD j .na = .na) :
    (ffillCol col).getD i .na = .na := by
  rw [ffillCol_getD col i h]
  have hnil : (col.take (i + 1)).filter (fun c => !c.isNa) = [] := by
    rw [List.filter_eq_nil_iff]
    intro c hcmem
    obtain ⟨j, hj, rfl⟩ := List.mem_take_iff_getElem.mp hcmem
    have hji : j ≤ i := by omega
    have hjlen : j < col.length := lt_of_lt_of_le hj (by simp)
    have := hall j hji
    rw [List.getD_eq_getElem col .na hjlen] at this
    rw [this]
    simp [Cell.isNa]
  rw [hnil]
  rfl

/-- The concrete frame of the claim's forward-fill example. -/
def ffillExample : List Row :=
  [{ symbol := "A", current_price := .fnum 10 }, { symbol := "B" }, { symbol := "C" },
   { symbol := "D", current_price := .fnum 20 }]

/-- C6: on a numerically-typed column, `handle_missing_values` forward-fills
`current_price`, `previous_close` and `open`: each entry becomes the nearest
preceding non-null value (itself when non-null), a leading null with no
preceding non-null value stays null, and the claim's
`[10, null, null, 20] → [10, 10, 10, 20]` example holds through the actual
step. -/
theorem handle_missing_values_ffill_spec :
    (∀ df : List Row, colIsNumeric (df.map (fun r => r.current_price)) = true →
        (handleMissingValues df).map (fun r => r.current_price) =
          ffillCol (df.map (fun r => r.current_price)))
    ∧ (∀ df : List Row, colIsNumeric (df.map (fun r => r.previous_close)) = true →
        (handleMissingValues df).map (fun r => r.previous_close) =
          ffillCol (df.map (fun r => r.previous_close)))
    ∧ (∀ df : List Row, colIsNumeric (df.map (fun r => r.«open»)) = true →
        (handleMissingValues df).map (fun r => r.«open») =
          ffillCol (df.map (fun r => r.«open»)))
    ∧ (∀ col : List Cell, ∀ i : ℕ, i < col.length →
        (ffillCol col).getD i .na =
          (((col.take (i + 1)).filter (fun c => !c.isNa)).getLast?).getD .na)
    ∧ (∀ col : List Cell, ∀ i : ℕ, i < col.length → (∀ j, j ≤ i → col.getD j .na = .na) →
        (ffillCol col).getD i .na = .na)
    ∧ ffillCol [.fnum 10, .na, .na, .fnum 20] = [.fnum 10, .fnum 10, .fnum 10, .fnum 20]
    ∧ (handleMissingValues ffillExample).map (fun r => r.current_price) =
        [.fnum 10, .fnum 10, .fnum 10, .fnum 20] := by
  refine ⟨?_, ?_, ?_, ffillCol_getD, ffillCol_leading_na, by decide, by decide⟩
  · intro df hnum
    rw [hmv_map_current_price]
    unfold ffillIfNum
    rw [if_pos hnum]
  · intro df hnum
    rw [hmv_map_previous_close]
    unfold ffillIfNum
    rw [if_pos hnum]
  · intro df hnum
    rw [hmv_map_open]
    unfold ffillIfNum
    rw [if_pos hnum]

/-- C6 witness: the forward-fill clause applied to the example frame. -/
theorem handle_missing_values_ffill_spec_witness :
    (handleMissingValues ffillExample).map (fun r => r.current_price) =
      ffillCol (ffillExample.map (fun r => r.current_price)) :=
  handle_missing_values_ffill_spec.1 ffillExample (by decide)

/-! ## Claim C9 infrastructure — cell typing and fixed points of the steps -/

/-- Cells a cleaned numeric column can hold: null, finite float, infinity. -/
def cellNumOk : Cell → Bool
  | .na => true
  | .fnum _ => true
  | .pinf _ => true
  | _ => false

/-- Cells a cleaned market-cap column can hold: null or string. -/
def cellMcOk : Cell → Bool
  | .na => true
  | .str _ => true
  | _ => false

theorem cellNumOk_pfToCell (p : PFloat) : cellNumOk (pfToCell p) = true := by
  cases p <;> rfl

theorem cellNumOk_cleanNumericValue (c : Cell) :
    cellNumOk (cleanNumericValue c) = true := by
  cases c with
  | str s =>
      simp only [cleanNumericValue]
      split
      · rfl
      · split
        · exact cellNumOk_pfToCell _
        · rfl
  | _ => rfl

theorem cleanNumericValue_numok_id {c : Cell} (h : cellNumOk c = true) :
    cleanNumericValue c = c := by
  cases c with
  | str s => exact absurd h (by simp [cellNumOk])
  | inum n => exact absurd h (by simp [cellNumOk])
  | _ => rfl

theorem toNumericCoerce_numok_id {c : Cell} (h : cellNumOk c = true) :
    toNumericCoerce c = c := by
  cases c with
  | str s => exact absurd h (by simp [cellNumOk])
  | _ => rfl

theorem cellNumOk_cellMedian (col : List Cell) : cellNumOk (cellMedian col) = true := by
  unfold cellMedian
  split
  · rfl
  · exact cellNumOk_pfToCell _

theorem cellNumOk_not_str {c : Cell} (h : cellNumOk c = true) : c.isStr = false := by
  cases c <;> simp_all [cellNumOk, Cell.isStr]

theorem colIsNumeric_of_numok {col : List Cell}
    (h : ∀ c ∈ col, cellNumOk c = true) : colIsNumeric col = true := by
  unfold colIsNumeric
  rw [List.all_eq_true]
  intro c hc
  simp [cellNumOk_not_str (h c hc)]

theorem cellMcOk_cleanMarketCapValue (c : Cell) :
    cellMcOk (cleanMarketCapValue c) = true := by
  cases c <;> rfl

/-! Fill-operation basics. -/

theorem fillCol_na (col : List Cell) : fillCol .na col = col := by
  unfold fillCol
  rw [List.map_congr_left (fun c _ => ?_), List.map_id]
  cases c <;> rfl

theorem fillCol_no_na {v : Cell} (hv : v.isNa = false) (col : List Cell) :
    ∀ c ∈ fillCol v col, c.isNa = false := by
  intro c hc
  obtain ⟨x, _, rfl⟩ := List.mem_map.mp hc
  by_cases hx : x.isNa = true
  · simp [hx, hv]
  · simp [Bool.eq_false_iff.mpr hx, hx]

theorem fillCol_id_of_no_na {col : List Cell} (h : ∀ c ∈ col, c.isNa = false)
    (v : Cell) : fillCol v col = col := by
  unfold fillCol
  rw [List.map_congr_left (fun c hc => ?_), List.map_id]
  rw [h c hc]
  simp

theorem colIsNumeric_fillCol {v : Cell} (hv : v.isStr = false) {col : List Cell}
    (h : colIsNumeric col = true) : colIsNumeric (fillCol v col) = true := by
  unfold colIsNumeric at h ⊢
  rw [List.all_eq_true] at h ⊢
  intro c hc
  obtain ⟨x, hx, rfl⟩ := List.mem_map.mp hc
  by_cases hxna : x.isNa = true
  · simp [hxna, hv]
  · have := h x hx
    simp_all

theorem numok_fillCol {v : Cell} (hv : cellNumOk v = true) {col : List Cell}
    (h : ∀ c ∈ col, cellNumOk c = true) :
    ∀ c ∈ fillCol v col, cellNumOk c = true := by
  intro c hc
  obtain ⟨x, hx, rfl⟩ := List.mem_map.mp hc
  by_cases hxna : x.isNa = true
  · simpa [hxna] using hv
  · simpa [hxna] using h x hx

theorem numok_ffillGo {prev : Cell} (hp : cellNumOk prev = true) :
    ∀ {col : List Cell}, (∀ c ∈ col, cellNumOk c = true) →
      ∀ c ∈ ffillGo prev col, cellNumOk c = true := by
  intro col
  induction col generalizing prev with
  | nil => intro _ c hc; simp [ffillGo] at hc
  | cons a t ih =>
      intro h c hc
      have ha : cellNumOk a = true := h a (by simp)
      have hcarry : cellNumOk (if a.isNa then prev else a) = true := by
        by_cases haa : a.isNa = true
        · simpa [haa] using hp
        · simpa [haa] using ha
      simp only [ffillGo, List.mem_cons] at hc
      rcases hc with rfl | hc
      · exact hcarry
      · exact ih hcarry (fun x hx => h x (by simp [hx])) c hc

theorem not_str_ffillGo {prev : Cell} (hp : prev.isStr = false) :
    ∀ {col : List Cell}, (∀ c ∈ col, c.isStr = false) →
      ∀ c ∈ ffillGo prev col, c.isStr = false := by
  intro col
  induction col generalizing prev with
  | nil => intro _ c hc; simp [ffillGo] at hc
  | cons a t ih =>
      intro h c hc
      have ha : a.isStr = false := h a (by simp)
      have hcarry : (if a.isNa then prev else a).isStr = false := by
        by_cases haa : a.isNa = true
        · simpa [haa] using hp
        · simpa [haa] using ha
      simp only [ffillGo, List.mem_cons] at hc
      rcases hc with rfl | hc
      · exact hcarry
      · exact ih hcarry (fun x hx => h x (by simp [hx])) c hc

theorem colIsNumeric_ffillCol {col : List Cell} (h : colIsNumeric col = true) :
    colIsNumeric (ffillCol col) = true := by
  unfold colIsNumeric at h ⊢
  rw [List.all_eq_true] at h ⊢
  intro c hc
  have := @not_str_ffillGo Cell.na rfl col (fun x hx => by simpa using h x hx) c hc
  simp [this]

/-! Idempotence of the per-column fill operations. -/

theorem ffillGo_idem : ∀ (prev : Cell) (l : List Cell),
    ffillGo prev (ffillGo prev l) = ffillGo prev l := by
  intro prev l
  induction l generalizing prev with
  | nil => rfl
  | cons c cs ih =>
      by_cases hc : c.isNa = true
      · simp only [ffillGo, hc, if_true, ite_self]
        rw [ih prev]
      · have hcf : c.isNa = false := Bool.eq_false_iff.mpr hc
        simp only [ffillGo, hcf, Bool.false_eq_true, if_false]
        rw [ih c]

theorem ffillIfNum_idem (col : List Cell) :
    ffillIfNum (ffillIfNum col) = ffillIfNum col := by
  by_cases hg : colIsNumeric col = true
  · unfold ffillIfNum
    rw [if_pos hg, if_pos (colIsNumeric_ffillCol hg)]
    exact ffillGo_idem .na col
  · unfold ffillIfNum
    rw [if_neg hg, if_neg hg]

theorem fill0IfNum_idem (col : List Cell) :
    fill0IfNum (fill0IfNum col) = fill0IfNum col := by
  by_cases hg : colIsNumeric col = true
  · have hg2 : colIsNumeric (fillCol (Cell.fnum 0) col) = true :=
      @colIsNumeric_fillCol (Cell.fnum 0) rfl col hg
    unfold fill0IfNum
    rw [if_pos hg, if_pos hg2]
    exact fillCol_id_of_no_na (@fillCol_no_na (Cell.fnum 0) rfl col) _
  · unfold fill0IfNum
    rw [if_neg hg, if_neg hg]

theorem medianFillIfNum_idem (col : List Cell) :
    medianFillIfNum (medianFillIfNum col) = medianFillIfNum col := by
  by_cases hg : colIsNumeric col = true
  · unfold medianFillIfNum
    rw [if_pos hg]
    by_cases hm : cellMedian col = .na
    · rw [hm, fillCol_na, if_pos hg, hm, fillCol_na]
    · have hvna : (cellMedian col).isNa = false := by
        cases hcm : cellMedian col <;> simp_all [Cell.isNa]
      have hstr : (cellMedian col).isStr = false :=
        cellNumOk_not_str (cellNumOk_cellMedian col)
      rw [if_pos (colIsNumeric_fillCol hstr hg)]
      exact fillCol_id_of_no_na (fillCol_no_na hvna col) _
  · unfold medianFillIfNum
    rw [if_neg hg, if_neg hg]

theorem numok_ffillIfNum {col : List Cell} (h : ∀ c ∈ col, cellNumOk c = true) :
    ∀ c ∈ ffillIfNum col, cellNumOk c = true := by
  unfold ffillIfNum
  split
  · exact fun c hc => @numok_ffillGo Cell.na rfl col h c hc
  · exact h

theorem numok_fill0IfNum {col : List Cell} (h : ∀ c ∈ col, cellNumOk c = true) :
    ∀ c ∈ fill0IfNum col, cellNumOk c = true := by
  unfold fill0IfNum
  split
  · exact fun c hc => @numok_fillCol (Cell.fnum 0) rfl col h c hc
  · exact h

theorem numok_medianFillIfNum {col : List Cell} (h : ∀ c ∈ col, cellNumOk c = true) :
    ∀ c ∈ medianFillIfNum col, cellNumOk c = true := by
  unfold medianFillIfNum
  split
  · exact numok_fillCol (cellNumOk_cellMedian col) h
  · exact h

/-- A column of nulls-or-strings is left unchanged by the median fill: with a
string present the column is not numeric; all-null gives a null median and
`fillna(NaN)` is a no-op. -/
theorem medianFillIfNum_id_of_mcok {col : List Cell}
    (h : ∀ c ∈ col, cellMcOk c = true) : medianFillIfNum col = col := by
  by_cases hg : colIsNumeric col = true
  · have hna : ∀ c ∈ col, c = Cell.na := by
      intro c hc
      have h1 := h c hc
      have h2 : c.isStr = false := by
        have := List.all_eq_true.mp hg c hc
        simpa using this
      cases c <;> simp_all [cellMcOk, Cell.isStr]
    have hmed : cellMedian col = .na := by
      unfold cellMedian
      have hnil : (col.map toPF).filter (fun p => !p.isNaN) = [] := by
        rw [List.filter_eq_nil_iff]
        intro p hp
        obtain ⟨c, hc, rfl⟩ := List.mem_map.mp hp
        rw [hna c hc]
        simp [toPF, PFloat.isNaN]
      rw [hnil]
    unfold medianFillIfNum
    rw [if_pos hg, hmed, fillCol_na]
  · unfold medianFillIfNum
    rw [if_neg hg]

/-! `str.strip()` does not affect `T`/`B`/`M` containment. -/

theorem mem_dropWhile_iff {p : Char → Bool} {c : Char} (hc : p c = false) :
    ∀ {l : List Char}, c ∈ l.dropWhile p ↔ c ∈ l := by
  intro l
  induction l with
  | nil => simp
  | cons a t ih =>
      by_cases ha : p a = true
      · rw [List.dropWhile_cons_of_pos ha, ih]
        have hne : c ≠ a := fun habs => by rw [habs] at hc; rw [hc] at ha; cases ha
        simp [hne]
      · rw [List.dropWhile_cons_of_neg (by simp [ha])]

theorem mem_dropEdges_iff {c : Char} (hc : isPySpace c = false) (l : List Char) :
    c ∈ dropEdges isPySpace l ↔ c ∈ l := by
  unfold dropEdges
  rw [List.mem_reverse, mem_dropWhile_iff hc, List.mem_reverse, mem_dropWhile_iff hc]

theorem contains_dropEdges {ch : Char} (hch : isPySpace ch = false) (l : List Char) :
    (dropEdges isPySpace l).contains ch = l.contains ch := by
  by_cases h : ch ∈ l
  · rw [char_contains_iff.mpr h, char_contains_iff.mpr ((mem_dropEdges_iff hch l).mpr h)]
  · have h2 : ch ∉ dropEdges isPySpace l := fun habs => h ((mem_dropEdges_iff hch l).mp habs)
    rw [Bool.eq_false_iff.mpr (fun habs => h (char_contains_iff.mp habs)),
      Bool.eq_false_iff.mpr (fun habs => h2 (char_contains_iff.mp habs))]

theorem categorizeMarketCap_pyStrip (s : String) :
    categorizeMarketCap (.str (pyStrip s)) = categorizeMarketCap (.str s) := by
  have hlist : (pyStrip s).toList = dropEdges isPySpace s.toList := rfl
  show (if (pyStrip s).toList.contains 'T' then "Mega Cap"
      else if (pyStrip s).toList.contains 'B' then "Large Cap"
      else if (pyStrip s).toList.contains 'M' then "Mid Cap" else "Small Cap") = _
  rw [hlist, @contains_dropEdges 'T' rfl s.toList, @contains_dropEdges 'B' rfl s.toList,
    @contains_dropEdges 'M' rfl s.toList]
  rfl

theorem categorize_cleanMarketCapValue {c : Cell} (h : cellMcOk c = true) :
    categorizeMarketCap (cleanMarketCapValue c) = categorizeMarketCap c := by
  cases c with
  | na => rfl
  | str s => exact categorizeMarketCap_pyStrip s
  | _ => exact absurd h (by simp [cellMcOk])

/-! Pointwise map identities and column congruence. -/

theorem map_id_of_all {f : Cell → Cell} {l : List Cell} (h : ∀ c ∈ l, f c = c) :
    l.map f = l := by
  rw [List.map_congr_left h, List.map_id']

theorem map2_of_col_eq {β : Type} (f : Cell → Cell → β) (p q : Row → Cell) :
    ∀ {Y X : List Row}, Y.map p = X.map p → Y.map q = X.map q →
      Y.map (fun r => f (p r) (q r)) = X.map (fun r => f (p r) (q r)) := by
  intro Y
  induction Y with
  | nil =>
      intro X h1 _
      cases X with
      | nil => rfl
      | cons x xs => simp at h1
  | cons y ys ih =>
      intro X h1 h2
      cases X with
      | nil => simp at h1
      | cons x xs =>
          simp only [List.map_cons, List.cons.injEq] at h1 h2 ⊢
          exact ⟨by rw [h1.1, h2.1], ih h1.2 h2.2⟩

theorem map3_of_col_eq {β : Type} (f : Cell → Cell → Cell → β) (p q t : Row → Cell) :
    ∀ {Y X : List Row}, Y.map p = X.map p → Y.map q = X.map q → Y.map t = X.map t →
      Y.map (fun r => f (p r) (q r) (t r)) = X.map (fun r => f (p r) (q r) (t r)) := by
  intro Y
  induction Y with
  | nil =>
      intro X h1 _ _
      cases X with
      | nil => rfl
      | cons x xs => simp at h1
  | cons y ys ih =>
      intro X h1 h2 h3
      cases X with
      | nil => simp at h1
      | cons x xs =>
          simp only [List.map_cons, List.cons.injEq] at h1 h2 h3 ⊢
          exact ⟨by rw [h1.1, h2.1, h3.1], ih h1.2 h2.2 h3.2⟩

/-! Round trips of a processed column through the second pass's clean,
standardize and fill. -/

theorem ffill_col_roundtrip {c0 col : List Cell} (hcol : col = ffillIfNum c0)
    (hnum : ∀ c ∈ col, cellNumOk c = true) :
    ffillIfNum ((col.map cleanNumericValue).map toNumericCoerce) = col := by
  have h1 : col.map cleanNumericValue = col :=
    map_id_of_all (fun c hc => cleanNumericValue_numok_id (hnum c hc))
  rw [h1]
  have h2 : col.map toNumericCoerce = col :=
    map_id_of_all (fun c hc => toNumericCoerce_numok_id (hnum c hc))
  rw [h2, hcol, ffillIfNum_idem]

theorem fill0_col_roundtrip {c0 col : List Cell} (hcol : col = fill0IfNum c0)
    (hnum : ∀ c ∈ col, cellNumOk c = true) :
    fill0IfNum ((col.map cleanNumericValue).map toNumericCoerce) = col := by
  have h1 : col.map cleanNumericValue = col :=
    map_id_of_all (fun c hc => cleanNumericValue_numok_id (hnum c hc))
  rw [h1]
  have h2 : col.map toNumericCoerce = col :=
    map_id_of_all (fun c hc => toNumericCoerce_numok_id (hnum c hc))
  rw [h2, hcol, fill0IfNum_idem]

theorem medianfill_col_roundtrip {c0 col : List Cell} (hcol : col = medianFillIfNum c0)
    (hnum : ∀ c ∈ col, cellNumOk c = true) :
    medianFillIfNum ((col.map cleanNumericValue).map toNumericCoerce) = col := by
  have h1 : col.map cleanNumericValue = col :=
    map_id_of_all (fun c hc => cleanNumericValue_numok_id (hnum c hc))
  rw [h1]
  have h2 : col.map toNumericCoerce = col :=
    map_id_of_all (fun c hc => toNumericCoerce_numok_id (hnum c hc))
  rw [h2, hcol, medianFillIfNum_idem]

/-! Column projections of the row-wise steps. -/

theorem map_cleanRow_current_price (l : List Row) :
    (l.map cleanRow).map (fun r => r.current_price) =
      (l.map (fun r => r.current_price)).map cleanNumericValue := by
  simp only [List.map_map]
  rfl

theorem map_cleanRow_previous_close (l : List Row) :
    (l.map cleanRow).map (fun r => r.previous_close) =
      (l.map (fun r => r.previous_close)).map cleanNumericValue := by
  simp only [List.map_map]
  rfl

theorem map_cleanRow_day_low (l : List Row) :
    (l.map cleanRow).map (fun r => r.day_low) =
      (l.map (fun r => r.day_low)).map cleanNumericValue := by
  simp only [List.map_map]
  rfl

theorem map_cleanRow_day_high (l : List Row) :
    (l.map cleanRow).map (fun r => r.day_high) =
      (l.map (fun r => r.day_high)).map cleanNumericValue := by
  simp only [List.map_map]
  rfl

theorem map_cleanRow_change_percent (l : List Row) :
    (l.map cleanRow).map (fun r => r.change_percent) =
      (l.map (fun r => r.change_percent)).map cleanNumericValue := by
  simp only [List.map_map]
  rfl

theorem map_cleanRow_market_cap (l : List Row) :
    (l.map cleanRow).map (fun r => r.market_cap) =
      (l.map (fun r => r.market_cap)).map cleanMarketCapValue := by
  simp only [List.map_map]
  rfl

theorem std_map_current_price (l : List Row) :
    (standardizeFormats l).map (fun r => r.current_price) =
      (l.map (fun r => r.current_price)).map toNumericCoerce := by
  simp only [standardizeFormats, List.map_map]
  rfl

theorem std_map_previous_close (l : List Row) :
    (standardizeFormats l).map (fun r => r.previous_close) =
      (l.map (fun r => r.previous_close)).map toNumericCoerce := by
  simp only [standardizeFormats, List.map_map]
  rfl

theorem std_map_day_low (l : List Row) :
    (standardizeFormats l).map (fun r => r.day_low) =
      (l.map (fun r => r.day_low)).map toNumericCoerce := by
  simp only [standardizeFormats, List.map_map]
  rfl

theorem std_map_day_high (l : List Row) :
    (standardizeFormats l).map (fun r => r.day_high) =
      (l.map (fun r => r.day_high)).map toNumericCoerce := by
  simp only [standardizeFormats, List.map_map]
  rfl

theorem std_map_change_percent (l : List Row) :
    (standardizeFormats l).map (fun r => r.change_percent) =
      (l.map (fun r => r.change_percent)).map toNumericCoerce := by
  simp only [standardizeFormats, List.map_map]
  rfl

theorem std_map_market_cap (l : List Row) :
    (standardizeFormats l).map (fun r => r.market_cap) =
      l.map (fun r => r.market_cap) := by
  simp only [standardizeFormats, List.map_map]
  rfl

theorem add_map_current_price (l : List Row) :
    (addDerivedMetrics l).map (fun r => r.current_price) =
      l.map (fun r => r.current_price) := by
  simp only [addDerivedMetrics, List.map_map]
  rfl

theorem add_map_previous_close (l : List Row) :
    (addDerivedMetrics l).map (fun r => r.previous_close) =
      l.map (fun r => r.previous_close) := by
  simp only [addDerivedMetrics, List.map_map]
  rfl

theorem add_map_day_low (l : List Row) :
    (addDerivedMetrics l).map (fun r => r.day_low) = l.map (fun r => r.day_low) := by
  simp only [addDerivedMetrics, List.map_map]
  rfl

theorem add_map_day_high (l : List Row) :
    (addDerivedMetrics l).map (fun r => r.day_high) = l.map (fun r => r.day_high) := by
  simp only [addDerivedMetrics, List.map_map]
  rfl

theorem add_map_change_percent (l : List Row) :
    (addDerivedMetrics l).map (fun r => r.change_percent) =
      l.map (fun r => r.change_percent) := by
  simp only [addDerivedMetrics, List.map_map]
  rfl

theorem add_map_market_cap (l : List Row) :
    (addDerivedMetrics l).map (fun r => r.market_cap) =
      l.map (fun r => r.market_cap) := by
  simp only [addDerivedMetrics, List.map_map]
  rfl

/-! The derived columns of a pipeline run, as functions of the imputed
source columns. -/

theorem pipeline_map_pm (z : List Row) :
    (pipeline z).map (fun r => r.price_momentum) =
      (handleMissingValues (standardizeFormats (cleanData z))).map
        (fun r => pmomCell r.current_price r.previous_close) := by
  simp only [pipeline, addDerivedMetrics, List.map_map]
  rfl

theorem pipeline_map_dv (z : List Row) :
    (pipeline z).map (fun r => r.daily_volatility) =
      (handleMissingValues (standardizeFormats (cleanData z))).map
        (fun r => dvolCell r.day_high r.day_low r.current_price) := by
  simp only [pipeline, addDerivedMetrics, List.map_map]
  rfl

theorem pipeline_map_mcc (z : List Row) :
    (pipeline z).map (fun r => r.market_cap_category) =
      (handleMissingValues (standardizeFormats (cleanData z))).map
        (fun r => Cell.str (categorizeMarketCap r.market_cap)) := by
  simp only [pipeline, addDerivedMetrics, List.map_map]
  rfl

theorem pipeline_map_pfc (z : List Row) :
    (pipeline z).map (fun r => r.performance_category) =
      (handleMissingValues (standardizeFormats (cleanData z))).map
        (fun r => Cell.str (categorizePerformance r.change_percent)) := by
  simp only [pipeline, addDerivedMetrics, List.map_map]
  rfl

/-! The error column stays all-null through the pipeline, so the second
pass's filter keeps every row. -/

theorem cleanData_error_na (df : List Row) : ∀ r ∈ cleanData df, r.error = Cell.na := by
  intro r hr
  obtain ⟨x, hx, rfl⟩ := List.mem_map.mp hr
  exact Cell.isNa_iff.mp (List.mem_filter.mp hx).2

theorem standardizeFormats_error_na {l : List Row} (h : ∀ r ∈ l, r.error = Cell.na) :
    ∀ r ∈ standardizeFormats l, r.error = Cell.na := by
  intro r hr
  obtain ⟨x, hx, rfl⟩ := List.mem_map.mp hr
  exact h x hx

theorem handleMissingValues_error_na {l : List Row} (h : ∀ r ∈ l, r.error = Cell.na) :
    ∀ r ∈ handleMissingValues l, r.error = Cell.na := by
  intro r hr
  have hcol : (handleMissingValues l).map (fun r => r.error) =
      l.map (fun r => r.error) := by
    rw [hmv_map_error]
    refine medianFillIfNum_id_of_mcok ?_
    intro c hc
    obtain ⟨x, hx, rfl⟩ := List.mem_map.mp hc
    rw [h x hx]
    rfl
  have hmem : r.error ∈ (handleMissingValues l).map (fun r => r.error) :=
    List.mem_map_of_mem _ hr
  rw [hcol] at hmem
  obtain ⟨x, hx, hxe⟩ := List.mem_map.mp hmem
  rw [← hxe, h x hx]

theorem addDerivedMetrics_error_na {l : List Row} (h : ∀ r ∈ l, r.error = Cell.na) :
    ∀ r ∈ addDerivedMetrics l, r.error = Cell.na := by
  intro r hr
  obtain ⟨x, hx, rfl⟩ := List.mem_map.mp hr
  exact h x hx

theorem pipeline_error_na (df : List Row) : ∀ r ∈ pipeline df, r.error = Cell.na :=
  addDerivedMetrics_error_na
    (handleMissingValues_error_na (standardizeFormats_error_na (cleanData_error_na df)))

theorem cleanData_of_pipeline (df : List Row) :
    cleanData (pipeline df) = (pipeline df).map cleanRow := by
  unfold cleanData
  rw [List.filter_eq_self.mpr]
  intro r hr
  rw [pipeline_error_na df r hr]
  rfl

/-- The second pass maps each imputed numeric source column to itself: the
column's cells are fixed points of `clean_numeric_value` and `to_numeric`,
and its fill operation is idempotent. -/
theorem second_pass_numeric_col
    (fill : List Cell → List Cell)
    (hfill_idem : ∀ col, fill (fill col) = fill col)
    (hfill_numok : ∀ (col : List Cell), (∀ c ∈ col, cellNumOk c = true) →
      ∀ c ∈ fill col, cellNumOk c = true)
    (proj : Row → Cell) (df : List Row)
    (hcleanRow : ∀ l : List Row,
      (l.map cleanRow).map proj = (l.map proj).map cleanNumericValue)
    (hstd : ∀ l : List Row,
      (standardizeFormats l).map proj = (l.map proj).map toNumericCoerce)
    (hadd : ∀ l : List Row, (addDerivedMetrics l).map proj = l.map proj)
    (hhmv : ∀ l : List Row, (handleMissingValues l).map proj = fill (l.map proj)) :
    (handleMissingValues (standardizeFormats (cleanData (pipeline df)))).map proj =
      (handleMissingValues (standardizeFormats (cleanData df))).map proj := by
  have hcdf : (cleanData df).map proj =
      ((df.filter (fun r => r.error.isNa)).map proj).map cleanNumericValue :=
    hcleanRow (df.filter (fun r => r.error.isNa))
  have hccolok : ∀ c ∈ ((df.filter (fun r => r.error.isNa)).map proj).map cleanNumericValue,
      cellNumOk c = true := by
    intro c hc
    obtain ⟨x, _, rfl⟩ := List.mem_map.mp hc
    exact cellNumOk_cleanNumericValue x
  have hXcol : (handleMissingValues (standardizeFormats (cleanData df))).map proj =
      fill (((df.filter (fun r => r.error.isNa)).map proj).map cleanNumericValue) := by
    rw [hhmv, hstd, hcdf,
      map_id_of_all (fun c hc => toNumericCoerce_numok_id (hccolok c hc))]
  have hXok : ∀ c ∈ (handleMissingValues (standardizeFormats (cleanData df))).map proj,
      cellNumOk c = true := by
    rw [hXcol]
    exact hfill_numok _ hccolok
  have hPcol : (pipeline df).map proj =
      (handleMissingValues (standardizeFormats (cleanData df))).map proj :=
    hadd (handleMissingValues (standardizeFormats (cleanData df)))
  rw [hhmv, hstd, cleanData_of_pipeline, hcleanRow, hPcol,
    map_id_of_all (fun c hc => cleanNumericValue_numok_id (hXok c hc)),
    map_id_of_all (fun c hc => toNumericCoerce_numok_id (hXok c hc)),
    hXcol, hfill_idem, ← hXcol]

/-- The first pass leaves the market-cap column as the cleaned (null-or-
trimmed-string) raw column. -/
theorem X_map_market_cap (df : List Row) :
    (handleMissingValues (standardizeFormats (cleanData df))).map (fun r => r.market_cap) =
      ((df.filter (fun r => r.error.isNa)).map (fun r => r.market_cap)).map
        cleanMarketCapValue := by
  rw [hmv_map_market_cap, std_map_market_cap,
    show (cleanData df).map (fun r => r.market_cap) =
        ((df.filter (fun r => r.error.isNa)).map (fun r => r.market_cap)).map
          cleanMarketCapValue from
      map_cleanRow_market_cap (df.filter (fun r => r.error.isNa))]
  exact medianFillIfNum_id_of_mcok (fun c hc => by
    obtain ⟨x, _, rfl⟩ := List.mem_map.mp hc
    exact cellMcOk_cleanMarketCapValue x)

theorem X_market_cap_mcok (df : List Row) :
    ∀ c ∈ (handleMissingValues (standardizeFormats (cleanData df))).map
        (fun r => r.market_cap), cellMcOk c = true := by
  rw [X_map_market_cap]
  intro c hc
  obtain ⟨x, _, rfl⟩ := List.mem_map.mp hc
  exact cellMcOk_cleanMarketCapValue x

/-- The second pass maps the market-cap column through one more
`clean_market_cap_value` (a re-strip), which does not change the
categorisation. -/
theorem Y_map_market_cap (df : List Row) :
    (handleMissingValues (standardizeFormats (cleanData (pipeline df)))).map
        (fun r => r.market_cap) =
      ((handleMissingValues (standardizeFormats (cleanData df))).map
        (fun r => r.market_cap)).map cleanMarketCapValue := by
  have hPmc : (pipeline df).map (fun r => r.market_cap) =
      (handleMissingValues (standardizeFormats (cleanData df))).map
        (fun r => r.market_cap) :=
    add_map_market_cap (handleMissingValues (standardizeFormats (cleanData df)))
  rw [hmv_map_market_cap, std_map_market_cap, cleanData_of_pipeline,
    map_cleanRow_market_cap, hPmc]
  exact medianFillIfNum_id_of_mcok (fun c hc => by
    obtain ⟨x, _, rfl⟩ := List.mem_map.mp hc
    exact cellMcOk_cleanMarketCapValue x)

/-- C9: running the cleaning/derivation pipeline (`clean_data`,
`standardize_formats`, `handle_missing_values`, `add_derived_metrics`) a
second time on a dataset it has already produced leaves the derived columns
`price_momentum`, `daily_volatility`, `market_cap_category` and
`performance_category` unchanged — in particular momentum and volatility are
recomputed from unchanged source columns, not re-scaled. -/
theorem pipeline_rerun_preserves_derived (df : List Row) :
    ((pipeline (pipeline df)).map (fun r => r.price_momentum) =
      (pipeline df).map (fun r => r.price_momentum))
    ∧ ((pipeline (pipeline df)).map (fun r => r.daily_volatility) =
      (pipeline df).map (fun r => r.daily_volatility))
    ∧ ((pipeline (pipeline df)).map (fun r => r.market_cap_category) =
      (pipeline df).map (fun r => r.market_cap_category))
    ∧ ((pipeline (pipeline df)).map (fun r => r.performance_category) =
      (pipeline df).map (fun r => r.performance_category)) := by
  have hYcp := second_pass_numeric_col ffillIfNum ffillIfNum_idem
    (fun _ h => numok_ffillIfNum h) (fun r => r.current_price) df
    map_cleanRow_current_price std_map_current_price add_map_current_price
    hmv_map_current_price
  have hYpc := second_pass_numeric_col ffillIfNum ffillIfNum_idem
    (fun _ h => numok_ffillIfNum h) (fun r => r.previous_close) df
    map_cleanRow_previous_close std_map_previous_close add_map_previous_close
    hmv_map_previous_close
  have hYdl := second_pass_numeric_col medianFillIfNum medianFillIfNum_idem
    (fun _ h => numok_medianFillIfNum h) (fun r => r.day_low) df
    map_cleanRow_day_low std_map_day_low add_map_day_low hmv_map_day_low
  have hYdh := second_pass_numeric_col medianFillIfNum medianFillIfNum_idem
    (fun _ h => numok_medianFillIfNum h) (fun r => r.day_high) df
    map_cleanRow_day_high std_map_day_high add_map_day_high hmv_map_day_high
  have hYcpct := second_pass_numeric_col fill0IfNum fill0IfNum_idem
    (fun _ h => numok_fill0IfNum h) (fun r => r.change_percent) df
    map_cleanRow_change_percent std_map_change_percent add_map_change_percent
    hmv_map_change_percent
  refine ⟨?_, ?_, ?_, ?_⟩
  · rw [pipeline_map_pm (pipeline df), pipeline_map_pm df]
    exact map2_of_col_eq pmomCell (fun r => r.current_price) (fun r => r.previous_close)
      hYcp hYpc
  · rw [pipeline_map_dv (pipeline df), pipeline_map_dv df]
    exact map3_of_col_eq dvolCell (fun r => r.day_high) (fun r => r.day_low)
      (fun r => r.current_price) hYdh hYdl hYcp
  · rw [pipeline_map_mcc (pipeline df), pipeline_map_mcc df]
    have hcolform : ∀ l : List Row,
        l.map (fun r => Cell.str (categorizeMarketCap r.market_cap)) =
          (l.map (fun r => r.market_cap)).map
            (fun c => Cell.str (categorizeMarketCap c)) := by
      intro l
      simp only [List.map_map]
      rfl
    rw [hcolform, hcolform, Y_map_market_cap, List.map_map]
    exact List.map_congr_left (fun c hc => by
      show Cell.str (categorizeMarketCap (cleanMarketCapValue c)) = _
      rw [categorize_cleanMarketCapValue (X_market_cap_mcok df c hc)])
  · rw [pipeline_map_pfc (pipeline df), pipeline_map_pfc df]
    have hcolform : ∀ l : List Row,
        l.map (fun r => Cell.str (categorizePerformance r.change_percent)) =
          (l.map (fun r => r.change_percent)).map
            (fun c => Cell.str (categorizePerformance c)) := by
      intro l
      simp only [List.map_map]
      rfl
    rw [hcolform, hcolform, hYcpct]

/-- C9 witness: the derived momentum column of a re-run on a concrete
one-row frame equals that of the first run. -/
theorem pipeline_rerun_preserves_derived_witness :
    (pipeline (pipeline
        [({ symbol := "A", current_price := .fnum 110, previous_close := .fnum 100 } :
          Row)])).map (fun r => r.price_momentum) =
      (pipeline
        [({ symbol := "A", current_price := .fnum 110, previous_close := .fnum 100 } :
          Row)]).map (fun r => r.price_momentum) :=
  (pipeline_rerun_preserves_derived _).1

end StockScraper
